import Mathlib

/-!
Verification of the configuration and program-resolution core of `uf`, a small
file-opener utility. The definitions below are a shallow embedding of
src/config.rs and src/mime.rs: pure string processing is translated directly,
and the two external effects (running the `file` command, extracting the path
extension via the platform API) are modelled as explicit arguments.
-/

deriving instance DecidableEq for Except

namespace Uf

/-- A detected MIME type, translated from the `MimeType` struct in src/mime.rs. -/
structure MimeType where
  supertype : String
  subtype : String
  deriving DecidableEq, Repr

/-- Split a list at the first occurrence of `c`, the list-level core of Rust
`str::split_once`: the delimiter is dropped and `none` is returned when the
delimiter does not occur. -/
def splitOnceList (c : Char) : List Char → Option (List Char × List Char)
  | [] => none
  | x :: xs =>
    if x = c then some ([], xs)
    else (splitOnceList c xs).map (fun p => (x :: p.1, p.2))

/-- Translated from Rust `str::split_once`. -/
def splitOnce (s : String) (c : Char) : Option (String × String) :=
  (splitOnceList c s.data).map (fun p => (String.mk p.1, String.mk p.2))

/-- The Unicode White_Space property, as consulted by Rust
`char::is_whitespace`: the control whitespace U+0009..U+000D, space, NEL
U+0085, NBSP U+00A0, Ogham space mark U+1680, the typographic spaces
U+2000..U+200A, line and paragraph separators U+2028 and U+2029, narrow
no-break space U+202F, medium mathematical space U+205F, and ideographic
space U+3000. Rust `str::trim` and `str::split_whitespace`, used by the
source, remove and split on exactly this class. -/
def isUnicodeWhitespace (c : Char) : Bool :=
  (0x0009 ≤ c.toNat && c.toNat ≤ 0x000D) || c.toNat == 0x0020 ||
    c.toNat == 0x0085 || c.toNat == 0x00A0 || c.toNat == 0x1680 ||
    (0x2000 ≤ c.toNat && c.toNat ≤ 0x200A) || c.toNat == 0x2028 ||
    c.toNat == 0x2029 || c.toNat == 0x202F || c.toNat == 0x205F ||
    c.toNat == 0x3000

/-- Remove leading and trailing whitespace characters, the list-level core of
Rust `str::trim` (Unicode White_Space on both ends). -/
def trimList (l : List Char) : List Char :=
  ((l.dropWhile isUnicodeWhitespace).reverse.dropWhile isUnicodeWhitespace).reverse

/-- Translated from Rust `str::trim`. -/
def trimStr (s : String) : String := String.mk (trimList s.data)

/-- Accumulator-style splitting into maximal runs of non-whitespace characters
(Unicode White_Space separators); `acc` holds the current word reversed. -/
def splitWhitespaceAux : List Char → List Char → List String
  | [], acc => if acc.isEmpty then [] else [String.mk acc.reverse]
  | c :: cs, acc =>
    if isUnicodeWhitespace c then
      if acc.isEmpty then splitWhitespaceAux cs []
      else String.mk acc.reverse :: splitWhitespaceAux cs []
    else splitWhitespaceAux cs (c :: acc)

/-- Translated from Rust `str::split_whitespace`: whitespace-separated tokens,
with no empty tokens produced. -/
def splitWhitespace (s : String) : List String := splitWhitespaceAux s.data []

/-- ASCII lower casing of one character, translated from Rust
`u8::to_ascii_lowercase` (only `A`..`Z` are changed). -/
def asciiLower (c : Char) : Char :=
  if c.isUpper then Char.ofNat (c.toNat + 32) else c

/-- Case-insensitive ASCII comparison, translated from Rust
`str::eq_ignore_ascii_case`: equal lengths and pointwise equality after ASCII
lower casing. -/
def eqIgnoreAsciiCase (a b : String) : Bool :=
  a.data.length == b.data.length &&
    (a.data.zip b.data).all (fun p => asciiLower p.1 == asciiLower p.2)

/-- Outcome of one completed invocation of the external detection command
(`file`); models `std::process::Output` as far as `MimeType::detect` inspects
it. The raw standard output bytes are modelled by their UTF-8 decoding result:
`Except.error ()` stands for output that is not valid UTF-8. -/
structure CmdOutput where
  success : Bool
  utf8Stdout : Except Unit String
  stderrText : String
  deriving DecidableEq, Repr

/-- Outcome of attempting to run the external detection command: either the
invocation itself failed (`Command::output` returned an error) or the command
completed with some output. -/
inductive CmdResult where
  | invokeFailure (message : String)
  | completed (output : CmdOutput)
  deriving DecidableEq, Repr

/-- Translated from `MimeType::detect` in src/mime.rs. The interaction with the
external `file` command is modelled by the `CmdResult` argument; everything
after the process call is translated directly. -/
def MimeType.detect (result : CmdResult) : Except String MimeType :=
  match result with
  | .invokeFailure _ => .error "Failed to execute 'file' command"
  | .completed output =>
    if output.success then
      match output.utf8Stdout with
      | .error _ => .error "'file' output is invalid UTF-8"
      | .ok mimeType =>
        match splitOnce (trimStr mimeType) '/' with
        | none => .error ("'file' output is not a valid MIME type: " ++ mimeType)
        | some p => .ok { supertype := p.1, subtype := p.2 }
    else
      .error ("'file' command failed: " ++ output.stderrText)

/-- Translated from the `Display` implementation for `MimeType` in src/mime.rs. -/
def MimeType.display (m : MimeType) : String := m.supertype ++ "/" ++ m.subtype

/-- The subtype part of a configured MIME key, translated from `MimeSubtypeKey`
in src/config.rs. -/
inductive MimeSubtypeKey where
  | Specific (subtype : String)
  | Wildcard
  deriving DecidableEq, Repr

/-- A configured MIME key, translated from `MimeTypeKey` in src/config.rs. -/
structure MimeTypeKey where
  supertype : String
  subtype : MimeSubtypeKey
  deriving DecidableEq, Repr

/-- Translated from `MimeTypeKey::matches` in src/config.rs. -/
def MimeTypeKey.matches (k : MimeTypeKey) (m : MimeType) : Bool :=
  eqIgnoreAsciiCase k.supertype m.supertype &&
    match k.subtype with
    | .Specific subtype => eqIgnoreAsciiCase subtype m.subtype
    | .Wildcard => true

/-- Allowed characters of a MIME key component, translated from the
`char_allowed` closure in `MimeTypeKey::from_str`. -/
def char_allowed (c : Char) : Bool :=
  c.isAlphanum || c == '+' || c == '-' || c == '.' || c == '_'

/-- Translated from the `FromStr` implementation of `MimeTypeKey` in
src/config.rs. -/
def MimeTypeKey.fromStr (s : String) : Except String MimeTypeKey :=
  match splitOnce s '/' with
  | none => .error ("Invalid MIME type: " ++ s)
  | some p =>
    if p.1.data.isEmpty || p.2.data.isEmpty || !p.1.data.all char_allowed then
      .error ("Invalid MIME type: " ++ s)
    else if p.2 = "*" then
      .ok { supertype := p.1, subtype := .Wildcard }
    else if p.2.data.all char_allowed then
      .ok { supertype := p.1, subtype := .Specific p.2 }
    else
      .error ("Invalid MIME type: " ++ s)

/-- One configuration rule, translated from `Mapping` in src/config.rs. The
Rust `OsString` extension is modelled as a `String`; the comparison stays exact
(byte for byte). -/
inductive Mapping where
  | Extension (extension : String) (program : String)
  | Mime (mime : MimeTypeKey) (program : String)
  deriving DecidableEq, Repr

/-- Translated from `Mapping::get_program` in src/config.rs. -/
def Mapping.get_program (m : Mapping) (mime : MimeType) (extension : Option String) :
    Option String :=
  match m with
  | .Extension mapExtension program =>
    if some mapExtension = extension then some program else none
  | .Mime mapMime program =>
    if mapMime.matches mime then some program else none

/-- Parse errors of the configuration parser, modelling the `anyhow` error
values produced in `Config::parse` and `MimeTypeKey::from_str`: the source
formats the (stripped) offending line into an `Invalid line:` message, and for
a bad MIME key wraps the `Invalid MIME type:` error with that message. -/
inductive ConfigError where
  | invalidLine (line : String)
  | invalidMimeType (line : String) (key : String)
  deriving DecidableEq, Repr

/-- Strip the comment (everything from the first `#` on) from a line,
translated from the `split_once` / `map_or` step of `Config::parse`. -/
def stripComment (line : String) : String :=
  match splitOnce line '#' with
  | some p => p.1
  | none => line

/-- Comment stripping followed by trimming, the preprocessing every line of the
configuration file undergoes in `Config::parse` before tokenization. -/
def stripLine (line : String) : String := trimStr (stripComment line)

/-- Keyword dispatch on the whitespace-separated tokens of a stripped line,
translated from the token handling of the per-line closure of `Config::parse`
in src/config.rs: exactly three tokens are required, the first must be `ext`
or `mime`, and a bad MIME key is reported as an invalid-MIME-type error
wrapped with the offending line. -/
def parseTokens (line : String) : List String → Except ConfigError (Option Mapping)
  | [kw, key, program] =>
    if kw = "ext" then
      .ok (some (.Extension key program))
    else if kw = "mime" then
      match MimeTypeKey.fromStr key with
      | .ok k => .ok (some (.Mime k program))
      | .error _ => .error (.invalidMimeType line key)
    else
      .error (.invalidLine line)
  | _ => .error (.invalidLine line)

/-- Parse one configuration line, translated from the per-line closure of
`Config::parse` in src/config.rs; `Except.ok none` is an ignored (blank or
comment-only) line. -/
def parseLine (rawLine : String) : Except ConfigError (Option Mapping) :=
  let line := stripLine rawLine
  if line.data.isEmpty then .ok none
  else parseTokens line (splitWhitespace line)

/-- The parsed configuration, translated from `Config` in src/config.rs. -/
structure Config where
  mappings : List Mapping
  deriving DecidableEq, Repr

/-- Fold of the per-line results, translated from the
`filter_map(Result::transpose)` / `collect::<Result<Vec<_>>>` pipeline of
`Config::parse`: lines are processed in order, the first failing line aborts
the whole parse, ignored lines contribute nothing. -/
def parseLines : List String → Except ConfigError (List Mapping)
  | [] => .ok []
  | line :: rest =>
    match parseLine line with
    | .error e => .error e
    | .ok none => parseLines rest
    | .ok (some m) =>
      match parseLines rest with
      | .error e => .error e
      | .ok ms => .ok (m :: ms)

/-- Translated from `Config::parse` in src/config.rs, with the input modelled
as the list of lines of the file (line read failures are I/O and outside the
model). -/
def Config.parse (lines : List String) : Except ConfigError Config :=
  (parseLines lines).map Config.mk

/-- Translated from `Config::get_program` in src/config.rs. The two external
effects are modelled as arguments: `extension` is the result of
`Path::extension` on the file path, and `detected` is the result of the
`MimeType::detect` call for the file, which the source performs
unconditionally before iterating the rules. -/
def Config.get_program (cfg : Config) (extension : Option String)
    (detected : Except String MimeType) : Except String String :=
  match detected with
  | .error e => .error e
  | .ok mime =>
    match cfg.mappings.findSome? (fun mapping => mapping.get_program mime extension) with
    | some program => .ok program
    | none =>
      .error
        (match extension with
         | some ext =>
           "No program found for MIME type '" ++ mime.display ++ "', extension '" ++ ext ++ "'"
         | none => "No program found for MIME type '" ++ mime.display ++ "'")

/-- One string occurs as a contiguous substring of another: there are context
strings on both sides. Used to state what the `NoProgramFound` message
contains. -/
def containsSubstring (needle haystack : String) : Prop :=
  ∃ s t, s ++ needle ++ t = haystack

/-! Helper lemmas about the string primitives. -/

theorem splitOnceList_eq_none {c : Char} {l : List Char} :
    splitOnceList c l = none ↔ c ∉ l := by
  induction l with
  | nil => simp [splitOnceList]
  | cons x xs ih =>
    by_cases h : x = c
    · subst h
      simp [splitOnceList]
    · simp only [splitOnceList, if_neg h, Option.map_eq_none', ih, List.mem_cons]
      constructor
      · intro hn hor
        rcases hor with h1 | h2
        · exact h h1.symm
        · exact hn h2
      · intro hn h2
        exact hn (Or.inr h2)

theorem splitOnceList_eq_some {c : Char} {l a b : List Char}
    (h : splitOnceList c l = some (a, b)) : l = a ++ c :: b ∧ c ∉ a := by
  induction l generalizing a b with
  | nil => simp [splitOnceList] at h
  | cons x xs ih =>
    by_cases hx : x = c
    · subst hx
      simp only [splitOnceList, if_pos rfl, Option.some.injEq, Prod.mk.injEq] at h
      obtain ⟨rfl, rfl⟩ := h
      simp
    · simp only [splitOnceList, if_neg hx, Option.map_eq_some'] at h
      obtain ⟨⟨a1, b1⟩, hsp, heq⟩ := h
      rw [Prod.mk.injEq] at heq
      obtain ⟨ha, hb⟩ := heq
      subst ha
      subst hb
      obtain ⟨hl, hc⟩ := ih hsp
      subst hl
      constructor
      · rfl
      · intro hm
        rcases List.mem_cons.mp hm with h1 | h2
        · exact hx h1.symm
        · exact hc h2

theorem splitOnceList_append {c : Char} {a : List Char} (b : List Char) (h : c ∉ a) :
    splitOnceList c (a ++ c :: b) = some (a, b) := by
  induction a with
  | nil => simp [splitOnceList]
  | cons x xs ih =>
    have hx : ¬(x = c) := fun e => h (e ▸ List.mem_cons_self x xs)
    rw [List.cons_append]
    simp only [splitOnceList, if_neg hx, ih (fun hm => h (List.mem_cons_of_mem _ hm))]
    rfl

theorem dropWhile_dropWhile {p : Char → Bool} {l : List Char} :
    (l.dropWhile p).dropWhile p = l.dropWhile p := by
  induction l with
  | nil => rfl
  | cons x xs ih =>
    by_cases h : p x
    · simp [List.dropWhile_cons, h, ih]
    · simp [List.dropWhile_cons, h]

theorem dropWhile_fixed_of_append {p : Char → Bool} {r t : List Char}
    (h : (r ++ t).dropWhile p = r ++ t) : r.dropWhile p = r := by
  cases r with
  | nil => rfl
  | cons x xs =>
    rw [List.cons_append, List.dropWhile_cons] at h
    by_cases hp : p x
    · rw [if_pos hp] at h
      have hle := (List.dropWhile_sublist (l := xs ++ t) p).length_le
      rw [h] at hle
      simp only [List.length_cons] at hle
      exact absurd hle (by omega)
    · rw [List.dropWhile_cons, if_neg hp]

theorem trimList_trimList {l : List Char} : trimList (trimList l) = trimList l := by
  have t2 : (trimList l).reverse.dropWhile isUnicodeWhitespace = (trimList l).reverse := by
    rw [trimList, List.reverse_reverse]
    exact dropWhile_dropWhile
  have t1 : (trimList l).dropWhile isUnicodeWhitespace = trimList l := by
    obtain ⟨s, hs⟩ :=
      List.dropWhile_suffix (l := (l.dropWhile isUnicodeWhitespace).reverse) isUnicodeWhitespace
    have hsplit : l.dropWhile isUnicodeWhitespace = trimList l ++ s.reverse := by
      have h2 := congrArg List.reverse hs
      rw [List.reverse_append, List.reverse_reverse] at h2
      rw [trimList]
      exact h2.symm
    refine dropWhile_fixed_of_append (t := s.reverse) ?_
    rw [← hsplit, dropWhile_dropWhile]
  show (((trimList l).dropWhile isUnicodeWhitespace).reverse.dropWhile
    isUnicodeWhitespace).reverse = trimList l
  rw [t1, t2, List.reverse_reverse]

theorem mem_of_mem_trimList {c : Char} {l : List Char} (h : c ∈ trimList l) : c ∈ l := by
  rw [trimList] at h
  have h1 := (List.dropWhile_sublist isUnicodeWhitespace (l := ((l.dropWhile isUnicodeWhitespace).reverse))).mem (List.mem_reverse.mp h)
  exact (List.dropWhile_sublist isUnicodeWhitespace (l := l)).mem (List.mem_reverse.mp h1)

theorem eqIgnoreAsciiCase_iff_aux (f : Char → Char) (a : List Char) :
    ∀ b : List Char,
      (a.length == b.length && (a.zip b).all fun p => f p.1 == f p.2) = true ↔
        a.map f = b.map f := by
  induction a with
  | nil =>
    intro b
    cases b <;> simp
  | cons x xs ih =>
    intro b
    cases b with
    | nil => simp
    | cons y ys =>
      simp only [List.length_cons, List.zip_cons_cons, List.all_cons, List.map_cons,
        List.cons.injEq, Bool.and_eq_true, beq_iff_eq]
      constructor
      · rintro ⟨hlen, hxy, hall⟩
        have hl : xs.length = ys.length := by omega
        exact ⟨hxy, (ih ys).mp (by simp [hl, hall])⟩
      · rintro ⟨hxy, hmap⟩
        have hh := (ih ys).mpr hmap
        simp only [Bool.and_eq_true, beq_iff_eq] at hh
        exact ⟨by omega, hxy, hh.2⟩

theorem eqIgnoreAsciiCase_iff {a b : String} :
    eqIgnoreAsciiCase a b = true ↔ a.data.map asciiLower = b.data.map asciiLower :=
  eqIgnoreAsciiCase_iff_aux asciiLower a.data b.data

theorem findSome?_first {α β : Type} (f : α → Option β) :
    ∀ (l : List α) (i : Nat) (h : i < l.length) (v : β),
      f (l.get ⟨i, h⟩) = some v →
      (∀ j (hj : j < i), f (l.get ⟨j, Nat.lt_trans hj h⟩) = none) →
      l.findSome? f = some v := by
  intro l
  induction l with
  | nil =>
    intro i h
    exact absurd h (by simp)
  | cons x xs ih =>
    intro i h v hv hnone
    cases i with
    | zero =>
      have hv0 : f x = some v := hv
      rw [List.findSome?_cons, hv0]
    | succ n =>
      have hx : f x = none := hnone 0 (Nat.succ_pos n)
      rw [List.findSome?_cons, hx]
      exact ih n (Nat.lt_of_succ_lt_succ h) v hv
        (fun j hj => hnone (j + 1) (Nat.succ_lt_succ hj))

theorem splitOnce_eq_none {s : String} {c : Char} :
    splitOnce s c = none ↔ c ∉ s.data := by
  rw [splitOnce, Option.map_eq_none']
  exact splitOnceList_eq_none

theorem splitOnce_eq_some {s : String} {c : Char} {a b : String}
    (h : splitOnce s c = some (a, b)) :
    s.data = a.data ++ c :: b.data ∧ c ∉ a.data := by
  rw [splitOnce, Option.map_eq_some'] at h
  obtain ⟨⟨a1, b1⟩, hsp, heq⟩ := h
  rw [Prod.mk.injEq] at heq
  obtain ⟨ha, hb⟩ := heq
  obtain ⟨hl, hc⟩ := splitOnceList_eq_some hsp
  subst ha
  subst hb
  exact ⟨hl, hc⟩

theorem mem_of_splitOnce_eq_some {s : String} {c : Char} {p : String × String}
    (h : splitOnce s c = some p) : c ∈ s.data := by
  obtain ⟨a, b⟩ := p
  obtain ⟨hl, -⟩ := splitOnce_eq_some h
  rw [hl]
  exact List.mem_append.mpr (Or.inr (List.mem_cons_self c b.data))

theorem splitOnce_of_data {s : String} {c : Char} {a b : List Char}
    (hdata : s.data = a ++ c :: b) (hmem : c ∉ a) :
    splitOnce s c = some (String.mk a, String.mk b) := by
  rw [splitOnce, hdata, splitOnceList_append b hmem]
  rfl

/-- Shared evaluation lemma: when the external command succeeds with decodable
output whose trimmed form splits as `a ++ '/' :: b` with `'/' ∉ a`, detection
returns exactly the components of that first split, verbatim. -/
theorem detect_ok_of_split {stde s : String} {a b : List Char}
    (hdata : (trimStr s).data = a ++ '/' :: b) (hmem : '/' ∉ a) :
    MimeType.detect (.completed ⟨true, .ok s, stde⟩) =
      .ok ⟨String.mk a, String.mk b⟩ := by
  have hsp : splitOnce (trimStr s) '/' = some (String.mk a, String.mk b) :=
    splitOnce_of_data hdata hmem
  have hdet : MimeType.detect (.completed ⟨true, Except.ok s, stde⟩) =
      (match splitOnce (trimStr s) '/' with
        | none => Except.error ("'file' output is not a valid MIME type: " ++ s)
        | some p => Except.ok ⟨p.1, p.2⟩) := rfl
  rw [hdet, hsp]

theorem splitOnce_of_data_str {s a b : String} {c : Char}
    (hdata : s.data = a.data ++ c :: b.data) (hmem : c ∉ a.data) :
    splitOnce s c = some (a, b) := splitOnce_of_data hdata hmem

/-! Helper lemmas about the configuration parser. -/

theorem parseLine_eq (rawLine : String) :
    parseLine rawLine =
      if (stripLine rawLine).data.isEmpty then .ok none
      else parseTokens (stripLine rawLine) (splitWhitespace (stripLine rawLine)) := rfl

theorem hash_not_mem_stripComment {line : String} :
    '#' ∉ (stripComment line).data := by
  cases hsp : splitOnce line '#' with
  | none =>
    have hsc : stripComment line = line := by
      simp only [stripComment]
      rw [hsp]
    rw [hsc]
    exact splitOnce_eq_none.mp hsp
  | some p =>
    have hsc : stripComment line = p.1 := by
      simp only [stripComment]
      rw [hsp]
    rw [hsc]
    obtain ⟨a, b⟩ := p
    exact (splitOnce_eq_some hsp).2

theorem stripComment_of_not_mem {line : String} (h : '#' ∉ line.data) :
    stripComment line = line := by
  simp only [stripComment]
  rw [splitOnce_eq_none.mpr h]

theorem stripComment_append_hash {pre : String} (post : String) (h : '#' ∉ pre.data) :
    stripComment (pre ++ "#" ++ post) = pre := by
  have hdata : (pre ++ "#" ++ post).data = pre.data ++ '#' :: post.data := by simp
  have hsp := splitOnce_of_data_str hdata h
  simp only [stripComment]
  rw [hsp]

theorem stripLine_idem {line : String} : stripLine (stripLine line) = stripLine line := by
  have hnomem : '#' ∉ (stripLine line).data := by
    intro hm
    exact hash_not_mem_stripComment (mem_of_mem_trimList hm)
  have h1 : stripComment (stripLine line) = stripLine line :=
    stripComment_of_not_mem hnomem
  show trimStr (stripComment (stripLine line)) = stripLine line
  rw [h1]
  show String.mk (trimList (trimList (stripComment line).data)) = stripLine line
  rw [trimList_trimList]
  rfl

theorem splitWhitespace_of_empty {s : String} (h : s.data = []) :
    splitWhitespace s = [] := by
  rw [splitWhitespace, h]
  rfl

theorem stripLine_ne_empty_of_split {line x : String} {l : List String}
    (h : splitWhitespace (stripLine line) = x :: l) :
    (stripLine line).data.isEmpty = false := by
  cases hd : (stripLine line).data with
  | nil =>
    rw [splitWhitespace_of_empty hd] at h
    exact List.noConfusion h
  | cons c cs => rfl

theorem parseLine_ext {line X prog : String}
    (h : splitWhitespace (stripLine line) = ["ext", X, prog]) :
    parseLine line = .ok (some (.Extension X prog)) := by
  have hne := stripLine_ne_empty_of_split h
  rw [parseLine_eq, hne, h]
  rfl

theorem parseLine_mime {line key prog : String} {k : MimeTypeKey}
    (h : splitWhitespace (stripLine line) = ["mime", key, prog])
    (hk : MimeTypeKey.fromStr key = .ok k) :
    parseLine line = .ok (some (.Mime k prog)) := by
  have hne := stripLine_ne_empty_of_split h
  have hstep : parseTokens (stripLine line) ["mime", key, prog] =
      (match MimeTypeKey.fromStr key with
        | .ok k2 => Except.ok (some (.Mime k2 prog))
        | .error _ => Except.error (.invalidMimeType (stripLine line) key)) := rfl
  rw [parseLine_eq, hne, h, hstep, hk]
  rfl

theorem slash_not_mem_of_allowed {l : List Char} (h : l.all char_allowed = true) :
    '/' ∉ l := by
  intro hm
  have h2 := List.all_eq_true.mp h _ hm
  exact absurd h2 (by decide)

theorem fromStr_wildcard {A : String} (hA : A.data.isEmpty = false)
    (hAc : A.data.all char_allowed = true) :
    MimeTypeKey.fromStr (A ++ "/" ++ "*") = .ok ⟨A, .Wildcard⟩ := by
  have hdata : (A ++ "/" ++ "*").data = A.data ++ '/' :: ("*" : String).data := by simp
  have hsp := splitOnce_of_data_str hdata (slash_not_mem_of_allowed hAc)
  simp only [MimeTypeKey.fromStr]
  rw [hsp]
  simp [hA, hAc]

theorem fromStr_specific {A B : String} (hA : A.data.isEmpty = false)
    (hAc : A.data.all char_allowed = true) (hB : B.data.isEmpty = false)
    (hBne : B ≠ "*") (hBc : B.data.all char_allowed = true) :
    MimeTypeKey.fromStr (A ++ "/" ++ B) = .ok ⟨A, .Specific B⟩ := by
  have hdata : (A ++ "/" ++ B).data = A.data ++ '/' :: B.data := by simp
  have hsp := splitOnce_of_data_str hdata (slash_not_mem_of_allowed hAc)
  simp only [MimeTypeKey.fromStr]
  rw [hsp]
  simp [hA, hAc, hB, hBne, hBc]

theorem fromStr_error_cases {s : String}
    (h : '/' ∉ s.data ∨ ∃ a b : List Char, s.data = a ++ '/' :: b ∧ '/' ∉ a ∧
      (a.isEmpty = true ∨ b.isEmpty = true ∨ a.all char_allowed = false ∨
        (b ≠ ['*'] ∧ b.all char_allowed = false))) :
    MimeTypeKey.fromStr s = .error ("Invalid MIME type: " ++ s) := by
  rcases h with h | ⟨a, b, hdata, hmem, hcase⟩
  · simp only [MimeTypeKey.fromStr]
    rw [splitOnce_eq_none.mpr h]
  · have hsp := splitOnce_of_data hdata hmem
    have hma : (String.mk a).data = a := rfl
    have hmb : (String.mk b).data = b := rfl
    simp only [MimeTypeKey.fromStr]
    rw [hsp]
    rcases hcase with h1 | h1 | h1 | ⟨h1, h2⟩
    · simp [hma, h1]
    · simp [hma, hmb, h1]
    · simp [hma, h1]
    · by_cases hc : (a.isEmpty || b.isEmpty || !a.all char_allowed) = true
      · simp [hma, hmb, hc]
      · have hb2 : ¬(String.mk b = "*") := by
          intro he
          exact h1 (congrArg String.data he)
        simp [hma, hmb, hc, hb2, h2]

theorem parse_single_of_parseLine {line : String} {m : Mapping}
    (h : parseLine line = .ok (some m)) : Config.parse [line] = .ok ⟨[m]⟩ := by
  rw [Config.parse]
  simp only [parseLines]
  rw [h]
  rfl

theorem parseLines_error_of_line :
    ∀ (lines : List String) (i : Nat) (hi : i < lines.length) (e : ConfigError),
      parseLine (lines.get ⟨i, hi⟩) = .error e →
      ∃ e2, parseLines lines = .error e2 := by
  intro lines
  induction lines with
  | nil =>
    intro i hi
    exact absurd hi (by simp)
  | cons x xs ih =>
    intro i hi e he
    cases i with
    | zero =>
      have hx : parseLine x = .error e := he
      refine ⟨e, ?_⟩
      simp only [parseLines]
      rw [hx]
    | succ n =>
      obtain ⟨e2, he2⟩ := ih n (Nat.lt_of_succ_lt_succ hi) e he
      cases hx : parseLine x with
      | error e3 =>
        refine ⟨e3, ?_⟩
        simp only [parseLines]
        rw [hx]
      | ok o =>
        cases o with
        | none =>
          refine ⟨e2, ?_⟩
          simp only [parseLines]
          rw [hx]
          exact he2
        | some m =>
          refine ⟨e2, ?_⟩
          simp only [parseLines]
          rw [hx, he2]

/-! The claims. -/

/-- C1: Resolution is first-match-wins in file order: `Config.get_program`
evaluates the parsed rules strictly in the order they appeared in the config
file and returns the program of the first rule that matches, with no
specificity-based preference; in particular, for rules
`[mime text/* A, ext txt B]` in that order and a `.txt` file whose detected
MIME type is `text/plain`, resolution returns `A`. -/
theorem claim1_first_match_wins :
    (∀ (cfg : Config) (mime : MimeType) (extension : Option String) (i : Nat)
        (h : i < cfg.mappings.length) (prog : String),
        (cfg.mappings.get ⟨i, h⟩).get_program mime extension = some prog →
        (∀ j (hj : j < i),
          (cfg.mappings.get ⟨j, Nat.lt_trans hj h⟩).get_program mime extension = none) →
        cfg.get_program extension (.ok mime) = .ok prog) ∧
    Config.get_program ⟨[.Mime ⟨"text", .Wildcard⟩ "A", .Extension "txt" "B"]⟩
      (some "txt") (.ok ⟨"text", "plain"⟩) = .ok "A" := by
  constructor
  · intro cfg mime extension i h prog hv hnone
    show (match cfg.mappings.findSome?
        (fun mapping => mapping.get_program mime extension) with
      | some program => Except.ok program
      | none => _) = Except.ok prog
    rw [findSome?_first (fun mapping => mapping.get_program mime extension)
      cfg.mappings i h prog hv hnone]
  · rfl

/-- C1 witness: the general part of C1 applied to a concrete one-rule
configuration. -/
theorem claim1_first_match_wins_witness :
    Config.get_program ⟨[.Extension "txt" "B"]⟩ (some "txt")
      (.ok ⟨"text", "plain"⟩) = .ok "B" :=
  claim1_first_match_wins.1 ⟨[.Extension "txt" "B"]⟩ ⟨"text", "plain"⟩ (some "txt")
    0 (by decide) "B" (by decide) (fun j hj => absurd hj (Nat.not_lt_zero j))

/-- C2: MIME detection is attempted on every call to `Config.get_program`
(the detection result is consumed before any rule is inspected), and whenever
detection fails, `get_program` fails immediately with that detection error,
regardless of the extension and of whether any extension rule in the config
would have matched the file. -/
theorem claim2_detection_failure_propagates :
    ∀ (cfg : Config) (extension : Option String) (e : String),
      cfg.get_program extension (.error e) = .error e := by
  intro cfg extension e
  rfl

/-- C6: MIME rule matching: a configured MIME key matches a detected MIME type
if and only if the supertypes are equal case-insensitively (equal after ASCII
lower casing) and either the key subtype is the wildcard or the subtypes are
equal case-insensitively; in particular key `image/*` matches detected
`image/png` and `image/jpeg` but not `application/png`, and key `Text/Plain`
matches detected `text/plain` and `TEXT/PLAIN`. -/
theorem claim6_mime_matching :
    (∀ (k : MimeTypeKey) (m : MimeType),
        k.matches m = true ↔
          (k.supertype.data.map asciiLower = m.supertype.data.map asciiLower ∧
            (k.subtype = .Wildcard ∨
              ∃ sub, k.subtype = .Specific sub ∧
                sub.data.map asciiLower = m.subtype.data.map asciiLower))) ∧
    MimeTypeKey.matches ⟨"image", .Wildcard⟩ ⟨"image", "png"⟩ = true ∧
    MimeTypeKey.matches ⟨"image", .Wildcard⟩ ⟨"image", "jpeg"⟩ = true ∧
    MimeTypeKey.matches ⟨"image", .Wildcard⟩ ⟨"application", "png"⟩ = false ∧
    MimeTypeKey.matches ⟨"Text", .Specific "Plain"⟩ ⟨"text", "plain"⟩ = true ∧
    MimeTypeKey.matches ⟨"Text", .Specific "Plain"⟩ ⟨"TEXT", "PLAIN"⟩ = true := by
  refine ⟨?_, by decide, by decide, by decide, by decide, by decide⟩
  intro k m
  obtain ⟨ksup, ksub⟩ := k
  cases ksub with
  | Wildcard =>
    simp [MimeTypeKey.matches, eqIgnoreAsciiCase_iff]
  | Specific sub =>
    simp [MimeTypeKey.matches, eqIgnoreAsciiCase_iff]

/-- C7: Extension rule matching is exact and case-sensitive: an extension rule
matches a file if and only if the extracted extension component of the path is
present and equal (byte for byte, modelled as `String` equality) to the stored
extension of the rule; a file with extension `.TXT` does not match a rule with
extension `txt`. -/
theorem claim7_extension_matching :
    (∀ (ext prog : String) (mime : MimeType) (extension : Option String) (p : String),
        (Mapping.Extension ext prog).get_program mime extension = some p ↔
          extension = some ext ∧ p = prog) ∧
    (Mapping.Extension "txt" "edit").get_program ⟨"text", "plain"⟩ (some "TXT") = none := by
  refine ⟨?_, by decide⟩
  intro ext prog mime extension p
  show (if some ext = extension then some prog else none) = some p ↔
    extension = some ext ∧ p = prog
  by_cases h : some ext = extension
  · subst h
    simp [eq_comm]
  · rw [if_neg h]
    constructor
    · intro hc
      exact Option.noConfusion hc
    · rintro ⟨he, _⟩
      exact absurd he.symm h

/-- C9: `MimeType.detect` fails with a detection error exactly when the
external detection command cannot be invoked, reports a failure status,
produces output that is not valid UTF-8 text, or produces output whose trimmed
form has no `/` separator; on success it splits the trimmed output at the
first `/` into a supertype and subtype that the accessors return verbatim, and
the Display rendering is `supertype/subtype`. -/
theorem claim9_detect_characterization :
    (∀ r : CmdResult,
        (∃ e, MimeType.detect r = .error e) ↔
          ((∃ msg, r = .invokeFailure msg) ∨
            (∃ o, r = .completed o ∧
              (o.success = false ∨ o.utf8Stdout = .error () ∨
                ∃ s, o.utf8Stdout = .ok s ∧ '/' ∉ (trimStr s).data)))) ∧
    (∀ (o : CmdOutput) (s : String) (a b : List Char),
        o.success = true → o.utf8Stdout = .ok s →
        (trimStr s).data = a ++ '/' :: b → '/' ∉ a →
        MimeType.detect (.completed o) = .ok ⟨String.mk a, String.mk b⟩ ∧
        MimeType.supertype ⟨String.mk a, String.mk b⟩ = String.mk a ∧
        MimeType.subtype ⟨String.mk a, String.mk b⟩ = String.mk b ∧
        MimeType.display ⟨String.mk a, String.mk b⟩ =
          String.mk a ++ "/" ++ String.mk b) := by
  constructor
  · intro r
    cases r with
    | invokeFailure msg =>
      constructor
      · intro _
        exact Or.inl ⟨msg, rfl⟩
      · intro _
        exact ⟨"Failed to execute 'file' command", rfl⟩
    | completed o =>
      obtain ⟨succ, stdo, stde⟩ := o
      cases succ with
      | false =>
        constructor
        · intro _
          exact Or.inr ⟨⟨false, stdo, stde⟩, rfl, Or.inl rfl⟩
        · intro _
          exact ⟨"'file' command failed: " ++ stde, rfl⟩
      | true =>
        cases stdo with
        | error u =>
          constructor
          · intro _
            exact Or.inr ⟨⟨true, .error u, stde⟩, rfl, Or.inr (Or.inl rfl)⟩
          · intro _
            exact ⟨"'file' output is invalid UTF-8", rfl⟩
        | ok s =>
          have hdet : MimeType.detect (.completed ⟨true, Except.ok s, stde⟩) =
              (match splitOnce (trimStr s) '/' with
                | none => Except.error ("'file' output is not a valid MIME type: " ++ s)
                | some p => Except.ok ⟨p.1, p.2⟩) := rfl
          cases hsp : splitOnce (trimStr s) '/' with
          | none =>
            constructor
            · intro _
              exact Or.inr ⟨⟨true, .ok s, stde⟩, rfl,
                Or.inr (Or.inr ⟨s, rfl, splitOnce_eq_none.mp hsp⟩)⟩
            · intro _
              refine ⟨"'file' output is not a valid MIME type: " ++ s, ?_⟩
              rw [hdet, hsp]
          | some p =>
            constructor
            · rintro ⟨e, he⟩
              rw [hdet, hsp] at he
              exact Except.noConfusion he
            · rintro (⟨msg, heq⟩ | ⟨o2, heq, ho⟩)
              · exact CmdResult.noConfusion heq
              · injection heq with h2
                subst h2
                rcases ho with h3 | h3 | ⟨s2, h3, hmem⟩
                · have h3b : true = false := h3
                  exact Bool.noConfusion h3b
                · exact Except.noConfusion h3
                · injection h3 with h4
                  subst h4
                  exact absurd (mem_of_splitOnce_eq_some hsp) hmem
  · intro o s a b hsucc hstd hdata hmem
    obtain ⟨succ, stdo, stde⟩ := o
    have h1 : succ = true := hsucc
    subst h1
    have h2 : stdo = .ok s := hstd
    subst h2
    exact ⟨detect_ok_of_split hdata hmem, rfl, rfl, rfl⟩

/-- C9 witness: the characterization applied to one failing invocation and one
successful invocation with output that needs trimming. -/
theorem claim9_detect_characterization_witness :
    (∃ e, MimeType.detect (.invokeFailure "no file") = .error e) ∧
    MimeType.detect (.completed ⟨true, .ok " text/plain\n", "x"⟩) =
      .ok ⟨"text", "plain"⟩ := by
  constructor
  · exact (claim9_detect_characterization.1 (.invokeFailure "no file")).mpr
      (Or.inl ⟨"no file", rfl⟩)
  · exact (claim9_detect_characterization.2 ⟨true, .ok " text/plain\n", "x"⟩
      " text/plain\n" "text".data "plain".data rfl rfl (by decide) (by decide)).1

/-- C10: detected MIME types are not validated against the configured key
character set: `MimeType.detect` accepts any trimmed UTF-8 output containing a
`/` (empty supertype or subtype, disallowed characters, and further `/`
characters all pass through, everything after the first `/` becoming the
subtype verbatim); such values still participate in matching, so the wildcard
key `text/*` matches a detected `text/` with empty subtype, even though no
specific rule key could be written for it (`MimeTypeKey.fromStr` rejects
`text/`). -/
theorem claim10_detected_values_unvalidated :
    (∀ (stde s : String) (a b : List Char),
        (trimStr s).data = a ++ '/' :: b → '/' ∉ a →
        MimeType.detect (.completed ⟨true, .ok s, stde⟩) =
          .ok ⟨String.mk a, String.mk b⟩) ∧
    MimeType.detect (.completed ⟨true, .ok "text/", ""⟩) = .ok ⟨"text", ""⟩ ∧
    MimeType.detect (.completed ⟨true, .ok "/x", ""⟩) = .ok ⟨"", "x"⟩ ∧
    MimeType.detect (.completed ⟨true, .ok "te xt/pl@in", ""⟩) =
      .ok ⟨"te xt", "pl@in"⟩ ∧
    MimeType.detect (.completed ⟨true, .ok "a/b/c", ""⟩) = .ok ⟨"a", "b/c"⟩ ∧
    MimeTypeKey.matches ⟨"text", .Wildcard⟩ ⟨"text", ""⟩ = true ∧
    MimeTypeKey.fromStr "text/" = .error "Invalid MIME type: text/" := by
  refine ⟨?_, by rfl, by rfl, by rfl, by rfl, by rfl, by rfl⟩
  intro stde s a b hdata hmem
  exact detect_ok_of_split hdata hmem

/-- C10 witness: the general acceptance statement applied to a concrete
detected value with an empty subtype. -/
theorem claim10_detected_values_unvalidated_witness :
    MimeType.detect (.completed ⟨true, .ok "x/", "e"⟩) = .ok ⟨"x", ""⟩ :=
  claim10_detected_values_unvalidated.1 "e" "x/" "x".data [] (by decide) (by decide)

/-- C8: when MIME detection succeeds but no rule in the config matches the
file, `Config.get_program` fails with a `NoProgramFound` error whose message
contains the detected MIME type rendered as `supertype/subtype` and, when the
path has an extension, that extension as well; when the path has no extension
the message is exactly the MIME-type-only message (no extension is
mentioned). -/
theorem claim8_no_program_found :
    (∀ (cfg : Config) (mime : MimeType) (ext : String),
        (∀ m ∈ cfg.mappings, m.get_program mime (some ext) = none) →
        ∃ msg, cfg.get_program (some ext) (.ok mime) = .error msg ∧
          containsSubstring mime.display msg ∧ containsSubstring ext msg) ∧
    (∀ (cfg : Config) (mime : MimeType),
        (∀ m ∈ cfg.mappings, m.get_program mime none = none) →
        cfg.get_program none (.ok mime) =
          .error ("No program found for MIME type '" ++ mime.display ++ "'")) ∧
    Config.get_program ⟨[.Extension "txt" "A"]⟩ (some "png") (.ok ⟨"image", "png"⟩) =
      .error "No program found for MIME type 'image/png', extension 'png'" := by
  refine ⟨?_, ?_, by rfl⟩
  · intro cfg mime ext h
    have hfind : cfg.mappings.findSome?
        (fun mapping => mapping.get_program mime (some ext)) = none :=
      List.findSome?_eq_none_iff.mpr h
    refine ⟨"No program found for MIME type '" ++ mime.display ++
      "', extension '" ++ ext ++ "'", ?_, ?_, ?_⟩
    · show (match cfg.mappings.findSome?
          (fun mapping => mapping.get_program mime (some ext)) with
        | some program => Except.ok program
        | none => Except.error ("No program found for MIME type '" ++ mime.display ++
            "', extension '" ++ ext ++ "'")) = _
      rw [hfind]
    · exact ⟨"No program found for MIME type '",
        "', extension '" ++ ext ++ "'", String.ext (by simp)⟩
    · exact ⟨"No program found for MIME type '" ++ mime.display ++ "', extension '",
        "'", String.ext (by simp)⟩
  · intro cfg mime h
    have hfind : cfg.mappings.findSome?
        (fun mapping => mapping.get_program mime none) = none :=
      List.findSome?_eq_none_iff.mpr h
    show (match cfg.mappings.findSome?
        (fun mapping => mapping.get_program mime none) with
      | some program => Except.ok program
      | none => Except.error ("No program found for MIME type '" ++ mime.display ++ "'")) = _
    rw [hfind]

/-- C8 witness: the no-match error applied to a concrete configuration, with
and without an extension on the path. -/
theorem claim8_no_program_found_witness :
    (∃ msg,
      Config.get_program ⟨[.Mime ⟨"text", .Wildcard⟩ "A"]⟩ (some "png")
        (.ok ⟨"image", "png"⟩) = .error msg ∧
      containsSubstring (MimeType.display ⟨"image", "png"⟩) msg ∧
      containsSubstring "png" msg) ∧
    Config.get_program ⟨[]⟩ none (.ok ⟨"image", "png"⟩) =
      .error ("No program found for MIME type '" ++
        MimeType.display ⟨"image", "png"⟩ ++ "'") := by
  constructor
  · exact claim8_no_program_found.1 ⟨[.Mime ⟨"text", .Wildcard⟩ "A"]⟩
      ⟨"image", "png"⟩ "png" (by decide)
  · exact claim8_no_program_found.2.1 ⟨[]⟩ ⟨"image", "png"⟩ (by decide)


/-- C3: Parsing round-trip: for every well-formed config line whose stripped
form tokenizes as `ext X prog` (exactly three whitespace-separated tokens),
`Config.parse` yields exactly one Extension rule with extension `X` and
program `prog`; for a line tokenizing as `mime A/B prog` with valid MIME key
`A/B`, it yields exactly one Mime rule with supertype `A` and subtype `B`
(wildcard when `B` is `*`) and program `prog`. -/
theorem claim3_parsing_roundtrip :
    (∀ (line X prog : String),
        splitWhitespace (stripLine line) = ["ext", X, prog] →
        Config.parse [line] = .ok ⟨[.Extension X prog]⟩) ∧
    (∀ (line A B prog : String),
        splitWhitespace (stripLine line) = ["mime", A ++ "/" ++ B, prog] →
        A.data.isEmpty = false → A.data.all char_allowed = true →
        (B = "*" → Config.parse [line] = .ok ⟨[.Mime ⟨A, .Wildcard⟩ prog]⟩) ∧
        (B ≠ "*" → B.data.isEmpty = false → B.data.all char_allowed = true →
          Config.parse [line] = .ok ⟨[.Mime ⟨A, .Specific B⟩ prog]⟩)) := by
  constructor
  · intro line X prog h
    exact parse_single_of_parseLine (parseLine_ext h)
  · intro line A B prog h hA hAc
    constructor
    · intro hB
      subst hB
      exact parse_single_of_parseLine (parseLine_mime h (fromStr_wildcard hA hAc))
    · intro hBne hB hBc
      exact parse_single_of_parseLine
        (parseLine_mime h (fromStr_specific hA hAc hB hBne hBc))

/-- C3 witness: the round trip applied to concrete `ext` and `mime` lines. -/
theorem claim3_parsing_roundtrip_witness :
    Config.parse ["ext txt edit"] = .ok ⟨[.Extension "txt" "edit"]⟩ ∧
    Config.parse ["mime text/* less"] =
      .ok ⟨[.Mime ⟨"text", .Wildcard⟩ "less"]⟩ ∧
    Config.parse ["mime image/png view"] =
      .ok ⟨[.Mime ⟨"image", .Specific "png"⟩ "view"]⟩ := by
  refine ⟨?_, ?_, ?_⟩
  · exact claim3_parsing_roundtrip.1 "ext txt edit" "txt" "edit" (by decide)
  · exact (claim3_parsing_roundtrip.2 "mime text/* less" "text" "*" "less"
      (by decide) (by decide) (by decide)).1 rfl
  · exact (claim3_parsing_roundtrip.2 "mime image/png view" "image" "png" "view"
      (by decide) (by decide) (by decide)).2 (by decide) (by decide) (by decide)

/-- C4: Comment and blank handling: every line is preprocessed by removing
everything from the first `#` onward and trimming before tokenization
(parsing a line equals parsing its stripped form, and an appended `#` comment
never changes the result); a line that is empty after this stripping yields no
rule and no error; and a concrete line with a trailing comment parses to a
rule identical to the same line without the comment. -/
theorem claim4_comment_blank_handling :
    (∀ line : String, parseLine line = parseLine (stripLine line)) ∧
    (∀ pre post : String, '#' ∉ pre.data →
        parseLine (pre ++ "#" ++ post) = parseLine pre) ∧
    (∀ line : String, stripLine line = "" → parseLine line = .ok none) ∧
    Config.parse ["  # just a comment"] = .ok ⟨[]⟩ ∧
    Config.parse ["ext txt edit  # trailing"] = Config.parse ["ext txt edit"] := by
  refine ⟨?_, ?_, ?_, by rfl, by rfl⟩
  · intro line
    rw [parseLine_eq, parseLine_eq, stripLine_idem]
  · intro pre post h
    have hs : stripLine (pre ++ "#" ++ post) = stripLine pre := by
      rw [stripLine, stripLine, stripComment_append_hash post h,
        stripComment_of_not_mem h]
    rw [parseLine_eq, parseLine_eq, hs]
  · intro line h
    rw [parseLine_eq, h]
    rfl

/-- C4 witness: comment removal and blank handling applied to concrete
lines. -/
theorem claim4_comment_blank_handling_witness :
    parseLine ("ext txt edit  " ++ "#" ++ " trailing") = parseLine "ext txt edit  " ∧
    parseLine "   " = .ok none := by
  constructor
  · exact claim4_comment_blank_handling.2.1 "ext txt edit  " " trailing" (by decide)
  · exact claim4_comment_blank_handling.2.2.1 "   " (by decide)

/-- C5: Parse rejection and abort: a non-empty stripped line that does not
split into exactly three whitespace-separated tokens, or whose first token is
neither `ext` nor `mime`, fails parsing with the invalid-line error; a `mime`
line whose key lacks `/`, has an empty supertype or subtype, or contains a
character outside ASCII alphanumeric plus `+`, `-`, `.`, `_` (subtype `*`
meaning wildcard excepted) fails with the invalid-MIME-type error; and any
such per-line failure aborts the entire parse, producing no Config. -/
theorem claim5_parse_rejection_and_abort :
    (∀ line : String, (stripLine line).data.isEmpty = false →
        (splitWhitespace (stripLine line)).length ≠ 3 →
        parseLine line = .error (.invalidLine (stripLine line))) ∧
    (∀ (line kw key prog : String),
        splitWhitespace (stripLine line) = [kw, key, prog] →
        kw ≠ "ext" → kw ≠ "mime" →
        parseLine line = .error (.invalidLine (stripLine line))) ∧
    (∀ (line key prog : String),
        splitWhitespace (stripLine line) = ["mime", key, prog] →
        ('/' ∉ key.data ∨ ∃ a b : List Char, key.data = a ++ '/' :: b ∧ '/' ∉ a ∧
          (a.isEmpty = true ∨ b.isEmpty = true ∨ a.all char_allowed = false ∨
            (b ≠ ['*'] ∧ b.all char_allowed = false))) →
        parseLine line = .error (.invalidMimeType (stripLine line) key)) ∧
    (∀ (lines : List String) (i : Nat) (hi : i < lines.length) (e : ConfigError),
        parseLine (lines.get ⟨i, hi⟩) = .error e →
        ∃ e2, Config.parse lines = .error e2) := by
  refine ⟨?_, ?_, ?_, ?_⟩
  · intro line hne hlen
    rw [parseLine_eq, hne]
    rcases hl : splitWhitespace (stripLine line) with _ | ⟨a, _ | ⟨b, _ | ⟨c, _ | ⟨d, rest⟩⟩⟩⟩
    · rfl
    · rfl
    · rfl
    · rw [hl] at hlen
      simp at hlen
    · rfl
  · intro line kw key prog h h1 h2
    have hne := stripLine_ne_empty_of_split h
    have hstep : parseTokens (stripLine line) [kw, key, prog] =
        (if kw = "ext" then Except.ok (some (.Extension key prog))
         else if kw = "mime" then
           (match MimeTypeKey.fromStr key with
             | .ok k => Except.ok (some (.Mime k prog))
             | .error _ => Except.error (.invalidMimeType (stripLine line) key))
         else Except.error (.invalidLine (stripLine line))) := rfl
    rw [parseLine_eq, hne, h, hstep, if_neg h1, if_neg h2]
    rfl
  · intro line key prog h hcase
    have hne := stripLine_ne_empty_of_split h
    have hstep : parseTokens (stripLine line) ["mime", key, prog] =
        (match MimeTypeKey.fromStr key with
          | .ok k => Except.ok (some (.Mime k prog))
          | .error _ => Except.error (.invalidMimeType (stripLine line) key)) := rfl
    rw [parseLine_eq, hne, h, hstep, fromStr_error_cases hcase]
    rfl
  · intro lines i hi e he
    obtain ⟨e2, he2⟩ := parseLines_error_of_line lines i hi e he
    refine ⟨e2, ?_⟩
    rw [Config.parse, he2]
    rfl

/-- C5 witness: the rejection cases applied to the concrete bad lines named in
the spec, and the abort applied to a file whose second line is bad. -/
theorem claim5_parse_rejection_and_abort_witness :
    parseLine "ext" = .error (.invalidLine "ext") ∧
    parseLine "foo a b" = .error (.invalidLine "foo a b") ∧
    parseLine "mime bad a" = .error (.invalidMimeType "mime bad a" "bad") ∧
    parseLine "mime /sub a" = .error (.invalidMimeType "mime /sub a" "/sub") ∧
    (∃ e2, Config.parse ["ext txt edit", "ext"] = .error e2) := by
  refine ⟨?_, ?_, ?_, ?_, ?_⟩
  · exact claim5_parse_rejection_and_abort.1 "ext" (by decide) (by decide)
  · exact claim5_parse_rejection_and_abort.2.1 "foo a b" "foo" "a" "b" (by decide)
      (by decide) (by decide)
  · exact claim5_parse_rejection_and_abort.2.2.1 "mime bad a" "bad" "a" (by decide)
      (Or.inl (by decide))
  · exact claim5_parse_rejection_and_abort.2.2.1 "mime /sub a" "/sub" "a" (by decide)
      (Or.inr ⟨[], "sub".data, by decide, by decide, Or.inl (by decide)⟩)
  · exact claim5_parse_rejection_and_abort.2.2.2 ["ext txt edit", "ext"] 1
      (by decide) (.invalidLine "ext") (by decide)

end Uf
